import Mathlib

/-!
Verification of the CSR improvement pipeline (roche-one).

Shallow embedding of the parts of the repository the claims concern:

* utils/file_utils.py : read_docx_text / write_docx_text over an abstract
  document store (a path-keyed association list of paragraph lists).
* agents/reviewer_agent.py and agents/compliance_agent.py :
  _parse_score_from_text (regex score extraction) and the evaluator entry
  points review_document / check_regulatory_compliance.  The LLM call is an
  oracle (a function from the document text to the generated report text).
* main.py : improve_csr_until_confident, the iterative evaluate/revise loop.
  The two evaluator scores of each iteration are an oracle from the iteration
  index, exactly the information the loop consumes from its collaborators;
  an instrumentation trace (one IterRec per executed iteration) records what
  the loop did, mirroring the score_history kept by app.py's variant of the
  same loop.

Python text is modelled as List Char, Python floats as rationals (all scores
are integers in [0,100] parsed from digit strings; sums and the division by
2.0 are exact in binary floating point on that range, so the rational model
is exact).
-/

/-- Python's whitespace test restricted to ASCII: the characters matched by
the regex class backslash-s and stripped by str.strip() for the ASCII texts
the pipeline handles (space, tab, newline, carriage return, vertical tab,
form feed). -/
def pyIsSpace (c : Char) : Bool :=
  c == ' ' || c == '\t' || c == '\n' || c == '\r' ||
    c == Char.ofNat 11 || c == Char.ofNat 12

/-- A paragraph/line is blank when str.strip() leaves nothing: every
character is whitespace (true in particular for the empty line). -/
def isBlankLine (l : List Char) : Bool := l.all pyIsSpace

/-- Python text.split(chr(10)): split a character list at every newline.
The result is never empty; splitting the empty text gives one empty line,
exactly as in Python. -/
def splitNl : List Char → List (List Char)
  | [] => [[]]
  | c :: cs =>
    if c = '\n' then [] :: splitNl cs
    else
      match splitNl cs with
      | [] => [[c]]
      | h :: t => (c :: h) :: t

/-- Python (chr(10)).join(lines): interleave a newline between lines. -/
def joinNl : List (List Char) → List Char
  | [] => []
  | [l] => l
  | l :: l2 :: ls => l ++ '\n' :: joinNl (l2 :: ls)

/-- The document store: paths mapped to the stored paragraph lists of a
.docx file.  file_utils reads and writes documents only through paragraphs,
so a document is its list of paragraphs (each a character list). -/
abbrev DocStore := List (String × List (List Char))

/-- Store lookup: the paragraphs of the file at a path, none when no file
exists there (python-docx raises on a missing file; the caller sees that as
the single read failure mode). -/
def storeGet : DocStore → String → Option (List (List Char))
  | [], _ => none
  | (q, d) :: rest, p => if q = p then some d else storeGet rest p

/-- Store update: Document.save(path) replaces whatever was at the path. -/
def storeSet : DocStore → String → List (List Char) → DocStore
  | [], p, d => [(p, d)]
  | (q, e) :: rest, p, d =>
    if q = p then (p, d) :: rest else (q, e) :: storeSet rest p d

/-- file_utils.read_docx_text: paragraphs whose text.strip() is truthy,
joined with newlines.  none models the exception python-docx raises when the
path resolves to no readable document. -/
def read_docx_text (store : DocStore) (path : String) : Option (List Char) :=
  (storeGet store path).map
    (fun paragraphs => joinNl (paragraphs.filter (fun p => !(isBlankLine p))))

/-- file_utils.write_docx_text: one paragraph per line of text.split(chr(10)),
saved at the path (mkdir of parents is invisible in the store model; save
overwrites an existing file unconditionally). -/
def write_docx_text (store : DocStore) (path : String) (text : List Char) :
    DocStore :=
  storeSet store path (splitNl text)

/-- The label of reviewer_agent._parse_score_from_text. -/
def completenessLabel : List Char := "OVERALL_COMPLETENESS_SCORE".toList

/-- The label of compliance_agent._parse_score_from_text. -/
def complianceLabel : List Char := "OVERALL_COMPLIANCE_SCORE".toList

/-- Try to strip a literal label from the front of the text; some r when the
text is label ++ r. -/
def stripLabel : List Char → List Char → Option (List Char)
  | [], rest => some rest
  | _ :: _, [] => none
  | a :: as, b :: bs => if a = b then stripLabel as bs else none

/-- Decimal value of a digit run (regex group 1, fed to float()). -/
def digitsToNat (ds : List Char) : ℕ :=
  ds.foldl (fun acc c => 10 * acc + (c.toNat - 48)) 0

/-- Attempt of the regex LABEL backslash-s* colon backslash-s* digits+ at the
start of the text: the label literally, optional whitespace, a colon,
optional whitespace, then a maximal nonempty digit run (the captured
group). -/
def matchLabelAt (label : List Char) (l : List Char) : Option ℕ :=
  match stripLabel label l with
  | none => none
  | some r1 =>
    match r1.dropWhile pyIsSpace with
    | ':' :: r3 =>
      let ds := (r3.dropWhile pyIsSpace).takeWhile Char.isDigit
      if ds.isEmpty then none else some (digitsToNat ds)
    | _ => none

/-- re.search: the leftmost position where the pattern matches, scanning the
text left to right. -/
def searchScore (label : List Char) : List Char → Option ℕ
  | [] => matchLabelAt label []
  | c :: cs =>
    match matchLabelAt label (c :: cs) with
    | some n => some n
    | none => searchScore label cs

/-- _parse_score_from_text of reviewer_agent.py / compliance_agent.py (same
code, different label): the first regex match clamped by
max(0.0, min(score, 100.0)); 0.0 with a logged warning when there is no
match. -/
def parse_score_from_text (label : List Char) (text : List Char) : ℚ :=
  match searchScore label text with
  | none => 0
  | some n => max 0 (min (n : ℚ) 100)

/-- The mutable path fields shared by ReviewerAgent and ComplianceAgent:
self.csr_path and self.output_path, initialised from config defaults and
reassigned by each call that passes a truthy argument. -/
structure EvalAgentState where
  csr_path : String
  output_path : String
deriving DecidableEq, Repr

/-- The argument handling at the top of review_document and
check_regulatory_compliance: a Python `if arg: self.field = arg` keeps the
current field when the argument is None or the empty string (both falsy) and
overwrites it otherwise. -/
def updateOptPath (arg : Option String) (cur : String) : String :=
  match arg with
  | none => cur
  | some s => if s = "" then cur else s

/-- The one failure the evaluator agents can hit in the embedded fragment:
python-docx raising because the document reference does not resolve. -/
inductive DocError where
  | documentNotFound
deriving DecidableEq, Repr

/-- Whether an Except result is a normal return. -/
def exceptOk {ε α : Type _} : Except ε α → Bool
  | .ok _ => true
  | .error _ => false

/-- ReviewerAgent.review_document: update the sticky path fields, read the
CSR text (the sole failure point), feed it to the LLM oracle, parse the
completeness score from the response, write the response to the report path,
and return (report path, score).  The state update happens before the read,
exactly as in the source, so the new state is returned even when the read
fails. -/
def review_document (st : EvalAgentState) (csr_path output_path : Option String)
    (llm : List Char → List Char) (store : DocStore) :
    EvalAgentState × Except DocError (DocStore × String × ℚ) :=
  let st1 : EvalAgentState :=
    ⟨updateOptPath csr_path st.csr_path, updateOptPath output_path st.output_path⟩
  (st1,
   match read_docx_text store st1.csr_path with
   | none => .error .documentNotFound
   | some csr_text =>
     let review_text := llm csr_text
     let score := parse_score_from_text completenessLabel review_text
     .ok (write_docx_text store st1.output_path review_text, st1.output_path, score))

/-- ComplianceAgent.check_regulatory_compliance: identical control flow to
review_document with the compliance label and report. -/
def check_regulatory_compliance (st : EvalAgentState)
    (csr_path output_path : Option String) (llm : List Char → List Char)
    (store : DocStore) :
    EvalAgentState × Except DocError (DocStore × String × ℚ) :=
  let st1 : EvalAgentState :=
    ⟨updateOptPath csr_path st.csr_path, updateOptPath output_path st.output_path⟩
  (st1,
   match read_docx_text store st1.csr_path with
   | none => .error .documentNotFound
   | some csr_text =>
     let compliance_text := llm csr_text
     let score := parse_score_from_text complianceLabel compliance_text
     .ok (write_docx_text store st1.output_path compliance_text, st1.output_path, score))

/-- The result dictionary returned by improve_csr_until_confident. -/
structure LoopResult where
  final_csr_path : String
  review_report_path : String
  compliance_report_path : String
  final_score : ℚ
  iterations : ℕ
deriving DecidableEq, Repr

/-- The loop variables of improve_csr_until_confident that flow across
iterations (final_csr_path is derived from current_csr_path at exit, in the
break branch as well as the for-else branch). -/
structure LoopState where
  current_csr_path : String
  final_score : ℚ
  review_report_path : String
  compliance_report_path : String
  iterations_done : ℕ
deriving DecidableEq, Repr

/-- Instrumentation record of one executed iteration: the iteration index,
both evaluator scores, the combined score the loop computed, and whether the
Reviser was invoked in this iteration.  Mirrors the score_history entries
app.py appends in its copy of the same loop. -/
structure IterRec where
  idx : ℕ
  review_score : ℚ
  compliance_score : ℚ
  combined : ℚ
  revised : Bool
deriving DecidableEq, Repr

/-- str(csr_dir / (csr_stem + "_v" + str(i) + ".docx")), the CSR version
path of iteration i. -/
def csrVersionPath (dir stem : String) (i : ℕ) : String :=
  dir ++ "/" ++ stem ++ "_v" ++ toString i ++ ".docx"

/-- The review report path of iteration i. -/
def reviewVersionPath (dir stem : String) (i : ℕ) : String :=
  dir ++ "/" ++ stem ++ "_review_v" ++ toString i ++ ".docx"

/-- The compliance report path of iteration i. -/
def complianceVersionPath (dir stem : String) (i : ℕ) : String :=
  dir ++ "/" ++ stem ++ "_compliance_v" ++ toString i ++ ".docx"

/-- The combined confidence score of iteration i for a given score oracle:
(review_score + compliance_score) / 2.0, line 78 of main.py. -/
def combinedScore (scores : ℕ → ℚ × ℚ) (i : ℕ) : ℚ :=
  ((scores i).1 + (scores i).2) / 2

/-- Body of the for-loop of improve_csr_until_confident, by recursion on the
number of remaining iterations (rem = max_iterations - i + 1 at entry).
Each pass: record iterations_done := i, obtain the two evaluator scores from
the oracle with the iteration's report paths, compute the combined score; on
final_score >= target_score break with current_csr_path untouched, otherwise
the Reviser writes the revision to the iteration's CSR version path and
returns it (ReviserAgent.revise_document returns its non-empty output_path),
which becomes current_csr_path for the next pass.  The second component is
the instrumentation trace. -/
def improveGo (scores : ℕ → ℚ × ℚ) (target : ℚ) (dir stem : String) :
    ℕ → ℕ → LoopState → LoopState × List IterRec
  | 0, _, st => (st, [])
  | rem + 1, i, st =>
    let r := (scores i).1
    let c := (scores i).2
    let comb := (r + c) / 2
    let st1 : LoopState :=
      { current_csr_path := st.current_csr_path
        final_score := comb
        review_report_path := reviewVersionPath dir stem i
        compliance_report_path := complianceVersionPath dir stem i
        iterations_done := i }
    if target ≤ comb then
      (st1, [⟨i, r, c, comb, false⟩])
    else
      let st2 := { st1 with current_csr_path := csrVersionPath dir stem i }
      let out := improveGo scores target dir stem rem (i + 1) st2
      (out.1, ⟨i, r, c, comb, true⟩ :: out.2)

/-- main.py improve_csr_until_confident.  dir and stem are the parent and
stem that Path derives from initial_csr_path (thin path I/O, passed in
explicitly); scores is the oracle giving the two parsed evaluator scores of
each iteration.  Returns the result dictionary together with the
instrumentation trace of executed iterations. -/
def improve_csr_until_confident (scores : ℕ → ℚ × ℚ) (dir stem : String)
    (initial_csr_path : String) (target_score : ℚ) (max_iterations : ℕ) :
    LoopResult × List IterRec :=
  let st0 : LoopState := ⟨initial_csr_path, 0, "", "", 0⟩
  let out := improveGo scores target_score dir stem max_iterations 1 st0
  (⟨out.1.current_csr_path, out.1.review_report_path,
    out.1.compliance_report_path, out.1.final_score, out.1.iterations_done⟩,
   out.2)

/-- Number of Reviser invocations recorded in a trace. -/
def countRevisions (tr : List IterRec) : ℕ :=
  (tr.filter (fun rc => rc.revised)).length

/-- The trace of a run that converges: n full evaluate-and-revise iterations
starting at index i, then one final iteration that evaluates and breaks. -/
def traceConv (scores : ℕ → ℚ × ℚ) : ℕ → ℕ → List IterRec
  | 0, i => [⟨i, (scores i).1, (scores i).2, combinedScore scores i, false⟩]
  | n + 1, i =>
    ⟨i, (scores i).1, (scores i).2, combinedScore scores i, true⟩ ::
      traceConv scores n (i + 1)

/-- The trace of a run that never converges: every executed iteration
evaluates and revises. -/
def traceExh (scores : ℕ → ℚ × ℚ) : ℕ → ℕ → List IterRec
  | 0, _ => []
  | n + 1, i =>
    ⟨i, (scores i).1, (scores i).2, combinedScore scores i, true⟩ ::
      traceExh scores n (i + 1)

example : searchScore completenessLabel "OVERALL_COMPLETENESS_SCORE: 150".toList = some 150 := by decide
example : parse_score_from_text completenessLabel "OVERALL_COMPLETENESS_SCORE: 150".toList = 100 := by decide
example : parse_score_from_text completenessLabel "no score here".toList = 0 := by decide
example : splitNl "a\nb".toList = ["a".toList, "b".toList] := by decide
example : joinNl (splitNl "a\n\nb".toList) = "a\n\nb".toList := by decide
example : read_docx_text (write_docx_text [] "p.docx" "a\n \nb".toList) "p.docx" = some "a\nb".toList := by decide
example :
    improve_csr_until_confident (fun _ => (90, 90)) "out" "csr" "init.docx" 80 3 =
      (⟨"init.docx", "out/csr_review_v1.docx", "out/csr_compliance_v1.docx", 90, 1⟩,
       [⟨1, 90, 90, 90, false⟩]) := by
  norm_num [improve_csr_until_confident, improveGo, reviewVersionPath,
    complianceVersionPath, csrVersionPath]
  exact ⟨rfl, rfl⟩
example :
    improve_csr_until_confident (fun _ => (10, 20)) "out" "csr" "init.docx" 80 2 =
      (⟨"out/csr_v2.docx", "out/csr_review_v2.docx", "out/csr_compliance_v2.docx", 15, 2⟩,
       [⟨1, 10, 20, 15, true⟩, ⟨2, 10, 20, 15, true⟩]) := by
  norm_num [improve_csr_until_confident, improveGo, reviewVersionPath,
    complianceVersionPath, csrVersionPath]
  exact ⟨rfl, rfl, rfl⟩
example :
    improve_csr_until_confident (fun _ => (10, 20)) "out" "csr" "init.docx" 80 0 =
      (⟨"init.docx", "", "", 0, 0⟩, []) := rfl

/-! ## Text round-trip lemmas -/

lemma splitNl_ne_nil (l : List Char) : splitNl l ≠ [] := by
  cases l with
  | nil => simp [splitNl]
  | cons c cs =>
    simp only [splitNl]
    split
    · simp
    · cases splitNl cs <;> simp

lemma joinNl_splitNl (l : List Char) : joinNl (splitNl l) = l := by
  induction l with
  | nil => rfl
  | cons c cs ih =>
    by_cases hc : c = '\n'
    · subst hc
      simp only [splitNl, if_pos rfl]
      cases hs : splitNl cs with
      | nil => exact absurd hs (splitNl_ne_nil cs)
      | cons h t =>
        rw [hs] at ih
        simpa [joinNl] using ih
    · simp only [splitNl, if_neg hc]
      cases hs : splitNl cs with
      | nil => exact absurd hs (splitNl_ne_nil cs)
      | cons h t =>
        rw [hs] at ih
        cases t with
        | nil => simpa [joinNl] using ih
        | cons h2 t2 =>
          simp only [joinNl, List.cons_append] at ih ⊢
          rw [ih]

lemma joinNl_length (ls : List (List Char)) :
    (joinNl ls).length = (ls.map List.length).sum + (ls.length - 1) := by
  induction ls with
  | nil => simp [joinNl]
  | cons h t ih =>
    cases t with
    | nil => simp [joinNl]
    | cons h2 t2 =>
      simp only [joinNl, List.length_append, List.length_cons, List.map_cons,
        List.sum_cons] at ih ⊢
      omega

lemma sum_map_length_filter_le (p : List Char → Bool) (ls : List (List Char)) :
    ((ls.filter p).map List.length).sum ≤ (ls.map List.length).sum := by
  induction ls with
  | nil => simp
  | cons h t ih =>
    by_cases hp : p h
    · simp only [List.filter_cons, hp, if_pos, List.map_cons, List.sum_cons]
      omega
    · simp only [List.filter_cons, Bool.not_eq_true] at *
      rw [if_neg (by simp [hp])]
      simp only [List.map_cons, List.sum_cons]
      omega

lemma length_filter_lt_of_mem (p : List Char → Bool) (ls : List (List Char))
    (a : List Char) (ha : a ∈ ls) (hpa : p a = false) :
    (ls.filter p).length < ls.length := by
  induction ls with
  | nil => simp at ha
  | cons h t ih =>
    rcases List.mem_cons.mp ha with rfl | hat
    · rw [List.filter_cons, if_neg (by simp [hpa])]
      simp only [List.length_cons]
      exact Nat.lt_succ_of_le (List.length_filter_le p t)
    · by_cases hp : p h
      · rw [List.filter_cons, if_pos (by simp [hp])]
        simpa using ih hat
      · rw [List.filter_cons, if_neg (by simp [hp])]
        simp only [List.length_cons]
        exact Nat.lt_succ_of_le (Nat.le_of_lt (ih hat))

/-! ## Document store lemmas -/

lemma storeGet_storeSet_self (s : DocStore) (p : String) (d : List (List Char)) :
    storeGet (storeSet s p d) p = some d := by
  induction s with
  | nil => simp [storeSet, storeGet]
  | cons e rest ih =>
    obtain ⟨q, v⟩ := e
    by_cases hq : q = p
    · simp [storeSet, storeGet, hq]
    · simp only [storeSet, if_neg hq, storeGet]
      exact ih

/-! ## Trace bookkeeping lemmas -/

lemma traceConv_length (scores : ℕ → ℚ × ℚ) :
    ∀ n i, (traceConv scores n i).length = n + 1 := by
  intro n
  induction n with
  | zero => intro i; rfl
  | succ n ih => intro i; simp [traceConv, ih]

lemma countRevisions_traceConv (scores : ℕ → ℚ × ℚ) :
    ∀ n i, countRevisions (traceConv scores n i) = n := by
  intro n
  induction n with
  | zero => intro i; rfl
  | succ n ih =>
    intro i
    simp only [traceConv, countRevisions, List.filter_cons]
    simpa [countRevisions] using ih (i + 1)

lemma traceExh_length (scores : ℕ → ℚ × ℚ) :
    ∀ n i, (traceExh scores n i).length = n := by
  intro n
  induction n with
  | zero => intro i; rfl
  | succ n ih => intro i; simp [traceExh, ih]

lemma countRevisions_traceExh (scores : ℕ → ℚ × ℚ) :
    ∀ n i, countRevisions (traceExh scores n i) = n := by
  intro n
  induction n with
  | zero => intro i; rfl
  | succ n ih =>
    intro i
    simp only [traceExh, countRevisions, List.filter_cons]
    simpa [countRevisions] using ih (i + 1)

/-! ## Control-flow lemmas for the improvement loop -/


lemma improveGo_zero (scores : ℕ → ℚ × ℚ) (target : ℚ) (dir stem : String)
    (i : ℕ) (st : LoopState) :
    improveGo scores target dir stem 0 i st = (st, []) := rfl

lemma improveGo_succ (scores : ℕ → ℚ × ℚ) (target : ℚ) (dir stem : String)
    (rem i : ℕ) (st : LoopState) :
    improveGo scores target dir stem (rem + 1) i st =
      (if target ≤ ((scores i).1 + (scores i).2) / 2 then
        (⟨st.current_csr_path, ((scores i).1 + (scores i).2) / 2,
          reviewVersionPath dir stem i, complianceVersionPath dir stem i, i⟩,
         [⟨i, (scores i).1, (scores i).2, ((scores i).1 + (scores i).2) / 2, false⟩])
      else
        ((improveGo scores target dir stem rem (i + 1)
            ⟨csrVersionPath dir stem i, ((scores i).1 + (scores i).2) / 2,
             reviewVersionPath dir stem i, complianceVersionPath dir stem i, i⟩).1,
         ⟨i, (scores i).1, (scores i).2, ((scores i).1 + (scores i).2) / 2, true⟩ ::
           (improveGo scores target dir stem rem (i + 1)
              ⟨csrVersionPath dir stem i, ((scores i).1 + (scores i).2) / 2,
               reviewVersionPath dir stem i, complianceVersionPath dir stem i, i⟩).2)) := by
  rw [improveGo]

lemma improveGo_converge (scores : ℕ → ℚ × ℚ) (target : ℚ) (dir stem : String)
    (k : ℕ) (hk : target ≤ combinedScore scores k) :
    ∀ rem i st, i ≤ k → k < i + rem →
      (∀ j, i ≤ j → j < k → combinedScore scores j < target) →
      improveGo scores target dir stem rem i st =
        (⟨if i = k then st.current_csr_path else csrVersionPath dir stem (k - 1),
          combinedScore scores k, reviewVersionPath dir stem k,
          complianceVersionPath dir stem k, k⟩,
         traceConv scores (k - i) i) := by
  intro rem
  induction rem with
  | zero => intro i st h1 h2 _; omega
  | succ rem ih =>
    intro i st h1 h2 hlow
    by_cases hik : i = k
    · subst hik
      have hk' : target ≤ ((scores i).1 + (scores i).2) / 2 := hk
      rw [improveGo_succ, if_pos hk']
      simp [traceConv, combinedScore]
    · have hik' : i < k := lt_of_le_of_ne h1 hik
      have hci : ¬ target ≤ ((scores i).1 + (scores i).2) / 2 :=
        not_le.mpr (hlow i le_rfl hik')
      rw [improveGo_succ, if_neg hci]
      rw [ih (i + 1) _ (by omega) (by omega) (fun j hj1 hj2 => hlow j (by omega) hj2)]
      have htr : k - i = (k - (i + 1)) + 1 := by omega
      have hcur : (if i + 1 = k then
            (⟨csrVersionPath dir stem i, ((scores i).1 + (scores i).2) / 2,
              reviewVersionPath dir stem i, complianceVersionPath dir stem i, i⟩ :
              LoopState).current_csr_path
          else csrVersionPath dir stem (k - 1)) = csrVersionPath dir stem (k - 1) := by
        by_cases hik1 : i + 1 = k
        · have hkk : k - 1 = i := by omega
          simp [if_pos hik1, hkk]
        · simp [if_neg hik1]
      rw [if_neg hik, hcur, htr]
      rfl

lemma improveGo_exhaust (scores : ℕ → ℚ × ℚ) (target : ℚ) (dir stem : String) :
    ∀ rem i st, (∀ j, i ≤ j → j < i + (rem + 1) → combinedScore scores j < target) →
      improveGo scores target dir stem (rem + 1) i st =
        (⟨csrVersionPath dir stem (i + rem), combinedScore scores (i + rem),
          reviewVersionPath dir stem (i + rem),
          complianceVersionPath dir stem (i + rem), i + rem⟩,
         traceExh scores (rem + 1) i) := by
  intro rem
  induction rem with
  | zero =>
    intro i st hlow
    have hci : ¬ target ≤ ((scores i).1 + (scores i).2) / 2 :=
      not_le.mpr (hlow i le_rfl (by omega))
    rw [improveGo_succ, if_neg hci, improveGo_zero]
    simp [traceExh, combinedScore]
  | succ rem ih =>
    intro i st hlow
    have hci : ¬ target ≤ ((scores i).1 + (scores i).2) / 2 :=
      not_le.mpr (hlow i le_rfl (by omega))
    rw [improveGo_succ, if_neg hci]
    rw [ih (i + 1) _ (fun j hj1 hj2 => hlow j (by omega) (by omega))]
    have h1 : i + 1 + rem = i + (rem + 1) := by omega
    rw [h1]
    exact Prod.ext rfl rfl

lemma improveGo_iterations_bound (scores : ℕ → ℚ × ℚ) (target : ℚ)
    (dir stem : String) :
    ∀ rem i st,
      (improveGo scores target dir stem rem i st).1.iterations_done =
          st.iterations_done ∨
        (improveGo scores target dir stem rem i st).1.iterations_done < i + rem := by
  intro rem
  induction rem with
  | zero => intro i st; left; rfl
  | succ rem ih =>
    intro i st
    rw [improveGo_succ]
    by_cases hc : target ≤ ((scores i).1 + (scores i).2) / 2
    · rw [if_pos hc]
      right
      show i < i + (rem + 1)
      omega
    · rw [if_neg hc]
      rcases ih (i + 1)
          ⟨csrVersionPath dir stem i, ((scores i).1 + (scores i).2) / 2,
           reviewVersionPath dir stem i, complianceVersionPath dir stem i, i⟩ with h | h
      · right
        have h' : (improveGo scores target dir stem rem (i + 1)
            ⟨csrVersionPath dir stem i, ((scores i).1 + (scores i).2) / 2,
             reviewVersionPath dir stem i, complianceVersionPath dir stem i,
             i⟩).1.iterations_done = i := h
        show (improveGo scores target dir stem rem (i + 1)
            ⟨csrVersionPath dir stem i, ((scores i).1 + (scores i).2) / 2,
             reviewVersionPath dir stem i, complianceVersionPath dir stem i,
             i⟩).1.iterations_done < i + (rem + 1)
        omega
      · right
        show (improveGo scores target dir stem rem (i + 1)
            ⟨csrVersionPath dir stem i, ((scores i).1 + (scores i).2) / 2,
             reviewVersionPath dir stem i, complianceVersionPath dir stem i,
             i⟩).1.iterations_done < i + (rem + 1)
        omega

lemma improveGo_trace_length_le (scores : ℕ → ℚ × ℚ) (target : ℚ)
    (dir stem : String) :
    ∀ rem i st, (improveGo scores target dir stem rem i st).2.length ≤ rem := by
  intro rem
  induction rem with
  | zero => intro i st; simp [improveGo_zero]
  | succ rem ih =>
    intro i st
    rw [improveGo_succ]
    by_cases hc : target ≤ ((scores i).1 + (scores i).2) / 2
    · rw [if_pos hc]; simp
    · rw [if_neg hc]
      show (_ :: _ : List IterRec).length ≤ rem + 1
      simpa using Nat.succ_le_succ (ih (i + 1) _)

lemma improveGo_trace_facts (scores : ℕ → ℚ × ℚ) (target : ℚ)
    (dir stem : String) :
    ∀ rem i st rc, rc ∈ (improveGo scores target dir stem rem i st).2 →
      rc.combined = (rc.review_score + rc.compliance_score) / 2 ∧
      rc.review_score = (scores rc.idx).1 ∧
      rc.compliance_score = (scores rc.idx).2 := by
  intro rem
  induction rem with
  | zero => intro i st rc h; simp [improveGo_zero] at h
  | succ rem ih =>
    intro i st rc h
    rw [improveGo_succ] at h
    by_cases hc : target ≤ ((scores i).1 + (scores i).2) / 2
    · rw [if_pos hc] at h
      simp only [List.mem_singleton] at h
      subst h
      exact ⟨rfl, rfl, rfl⟩
    · rw [if_neg hc] at h
      simp only [List.mem_cons] at h
      rcases h with rfl | h
      · exact ⟨rfl, rfl, rfl⟩
      · exact ih (i + 1) _ rc h

/-! ## Claim theorems -/

/-- C1: Convergence of the improvement loop.  If iteration k is the first
iteration whose combined score reaches target_score, the loop stops at
iteration k: it reports k iterations, a trace of exactly k executed
iterations, exactly k - 1 Reviser invocations (all before iteration k, none
at or after it), the combined score of iteration k, and the final document
is the version that iteration k evaluated (the initial document when k = 1,
otherwise the revision written at iteration k - 1), not a newly revised
one. -/
theorem spec_C1_convergence (scores : ℕ → ℚ × ℚ) (dir stem initial : String)
    (target : ℚ) (mi k : ℕ) (hk1 : 1 ≤ k) (hkmi : k ≤ mi)
    (hconv : target ≤ combinedScore scores k)
    (hbefore : ∀ j, 1 ≤ j → j < k → combinedScore scores j < target) :
    (improve_csr_until_confident scores dir stem initial target mi).1.iterations = k ∧
    (improve_csr_until_confident scores dir stem initial target mi).1.final_score =
      combinedScore scores k ∧
    (improve_csr_until_confident scores dir stem initial target mi).2.length = k ∧
    countRevisions
      (improve_csr_until_confident scores dir stem initial target mi).2 = k - 1 ∧
    (improve_csr_until_confident scores dir stem initial target mi).1.final_csr_path =
      (if k = 1 then initial else csrVersionPath dir stem (k - 1)) := by
  have hgo := improveGo_converge scores target dir stem k hconv mi 1
    ⟨initial, 0, "", "", 0⟩ hk1 (by omega) (fun j hj1 hj2 => hbefore j hj1 hj2)
  have himp : improve_csr_until_confident scores dir stem initial target mi =
      (⟨if 1 = k then initial else csrVersionPath dir stem (k - 1),
        reviewVersionPath dir stem k, complianceVersionPath dir stem k,
        combinedScore scores k, k⟩,
       traceConv scores (k - 1) 1) := by
    simp only [improve_csr_until_confident]
    rw [hgo]
  rw [himp]
  refine ⟨rfl, rfl, ?_, ?_, ?_⟩
  · show (traceConv scores (k - 1) 1).length = k
    rw [traceConv_length]
    omega
  · show countRevisions (traceConv scores (k - 1) 1) = k - 1
    rw [countRevisions_traceConv]
  · show (if 1 = k then initial else csrVersionPath dir stem (k - 1)) =
      (if k = 1 then initial else csrVersionPath dir stem (k - 1))
    by_cases hk' : k = 1
    · simp [hk']
    · rw [if_neg hk', if_neg (fun h => hk' h.symm)]

/-- C1 witness: with both scores 90 and target 80 the loop converges at
iteration 1, never invokes the Reviser, and keeps the initial document. -/
theorem spec_C1_convergence_witness :
    (improve_csr_until_confident (fun _ => (90, 90)) "out" "csr" "init.docx" 80 3).1.iterations = 1 ∧
    (improve_csr_until_confident (fun _ => (90, 90)) "out" "csr" "init.docx" 80 3).1.final_score = 90 ∧
    (improve_csr_until_confident (fun _ => (90, 90)) "out" "csr" "init.docx" 80 3).2.length = 1 ∧
    countRevisions
      (improve_csr_until_confident (fun _ => (90, 90)) "out" "csr" "init.docx" 80 3).2 = 0 ∧
    (improve_csr_until_confident (fun _ => (90, 90)) "out" "csr" "init.docx" 80 3).1.final_csr_path =
      "init.docx" := by
  have h := spec_C1_convergence (fun _ => (90, 90)) "out" "csr" "init.docx" 80 3 1
    le_rfl (by omega) (by norm_num [combinedScore]) (by intro j hj1 hj2; omega)
  obtain ⟨h1, h2, h3, h4, h5⟩ := h
  refine ⟨h1, ?_, h3, h4, ?_⟩
  · rw [h2]
    norm_num [combinedScore]
  · simpa using h5

/-- C2: Boundedness.  For every configuration and every score sequence the
loop reports at most max_iterations iterations and executes at most
max_iterations evaluate/revise cycles (trace entries). -/
theorem spec_C2_bounded (scores : ℕ → ℚ × ℚ) (dir stem initial : String)
    (target : ℚ) (mi : ℕ) :
    (improve_csr_until_confident scores dir stem initial target mi).1.iterations ≤ mi ∧
    (improve_csr_until_confident scores dir stem initial target mi).2.length ≤ mi := by
  constructor
  · have h := improveGo_iterations_bound scores target dir stem mi 1
      ⟨initial, 0, "", "", 0⟩
    have h0 : (⟨initial, 0, "", "", 0⟩ : LoopState).iterations_done = 0 := rfl
    have he : (improve_csr_until_confident scores dir stem initial target mi).1.iterations =
        (improveGo scores target dir stem mi 1 ⟨initial, 0, "", "", 0⟩).1.iterations_done :=
      rfl
    rw [he]
    rcases h with h | h
    · rw [h, h0]
      exact Nat.zero_le mi
    · omega
  · exact improveGo_trace_length_le scores target dir stem mi 1 _

/-- C3: Aggregation law.  Every executed iteration records as its combined
score exactly the unweighted mean (review_score + compliance_score) / 2 of
the two evaluator scores the oracle delivered at that iteration; no other
aggregation is applied at any iteration. -/
theorem spec_C3_aggregation (scores : ℕ → ℚ × ℚ) (dir stem initial : String)
    (target : ℚ) (mi : ℕ) :
    ∀ rc ∈ (improve_csr_until_confident scores dir stem initial target mi).2,
      rc.combined = (rc.review_score + rc.compliance_score) / 2 ∧
      rc.review_score = (scores rc.idx).1 ∧
      rc.compliance_score = (scores rc.idx).2 := by
  intro rc h
  exact improveGo_trace_facts scores target dir stem mi 1 _ rc h

/-- C3 witness: the single iteration of a concrete run (scores 60 and 70)
records combined score (60 + 70) / 2. -/
theorem spec_C3_aggregation_witness :
    (⟨1, 60, 70, 65, true⟩ : IterRec).combined =
      ((⟨1, 60, 70, 65, true⟩ : IterRec).review_score +
        (⟨1, 60, 70, 65, true⟩ : IterRec).compliance_score) / 2 ∧
    (⟨1, 60, 70, 65, true⟩ : IterRec).review_score = 60 ∧
    (⟨1, 60, 70, 65, true⟩ : IterRec).compliance_score = 70 := by
  have htr : (improve_csr_until_confident (fun _ => (60, 70)) "out" "csr" "init.docx" 80 1).2 =
      [⟨1, 60, 70, 65, true⟩] := by
    norm_num [improve_csr_until_confident, improveGo, reviewVersionPath,
      complianceVersionPath, csrVersionPath]
  have hmem : (⟨1, 60, 70, 65, true⟩ : IterRec) ∈
      (improve_csr_until_confident (fun _ => (60, 70)) "out" "csr" "init.docx" 80 1).2 := by
    rw [htr]
    simp
  exact spec_C3_aggregation (fun _ => (60, 70)) "out" "csr" "init.docx" 80 1
    ⟨1, 60, 70, 65, true⟩ hmem

/-- C4: ScoreExtractor contract.  For every label and input text the parsed
score lies in [0, 100]; it is exactly 0 when the regex finds no match
(silent degradation, the function is total and never raises); and when the
first match carries the integer n the result is n clamped to [0, 100]
(min n 100, the lower clamp being vacuous since the regex matches only
unsigned digit runs). -/
theorem spec_C4_score_extractor (label text : List Char) :
    (0 ≤ parse_score_from_text label text ∧ parse_score_from_text label text ≤ 100) ∧
    (searchScore label text = none → parse_score_from_text label text = 0) ∧
    (∀ n : ℕ, searchScore label text = some n →
      parse_score_from_text label text = min (n : ℚ) 100) := by
  refine ⟨⟨?_, ?_⟩, ?_, ?_⟩
  · unfold parse_score_from_text
    cases searchScore label text with
    | none => norm_num
    | some n => exact le_max_left 0 _
  · unfold parse_score_from_text
    cases searchScore label text with
    | none => norm_num
    | some n => exact max_le (by norm_num) (min_le_right _ _)
  · intro h
    simp [parse_score_from_text, h]
  · intro n h
    simp only [parse_score_from_text, h]
    exact max_eq_right (le_min (Nat.cast_nonneg n) (by norm_num))

/-- C4 witness: an in-text score of 150 is clamped to 100. -/
theorem spec_C4_score_extractor_witness :
    parse_score_from_text completenessLabel
      "OVERALL_COMPLETENESS_SCORE: 150".toList = 100 := by
  have h := (spec_C4_score_extractor completenessLabel
      "OVERALL_COMPLETENESS_SCORE: 150".toList).2.2 150 (by decide)
  rw [h]
  norm_num

/-- C5: Iteration exhaustion.  When max_iterations >= 1 and no iteration in
1..max_iterations reaches target_score, the loop runs exactly
max_iterations iterations (trace length and reported count both equal
max_iterations), revises in every iteration including the last, and the
final document is the revision written at the last iteration, at version
path stem_v(max_iterations). -/
theorem spec_C5_exhaustion (scores : ℕ → ℚ × ℚ) (dir stem initial : String)
    (target : ℚ) (mi : ℕ) (hmi : 1 ≤ mi)
    (hall : ∀ j, 1 ≤ j → j ≤ mi → combinedScore scores j < target) :
    (improve_csr_until_confident scores dir stem initial target mi).1.iterations = mi ∧
    (improve_csr_until_confident scores dir stem initial target mi).1.final_csr_path =
      csrVersionPath dir stem mi ∧
    (improve_csr_until_confident scores dir stem initial target mi).1.final_score =
      combinedScore scores mi ∧
    (improve_csr_until_confident scores dir stem initial target mi).2.length = mi ∧
    countRevisions
      (improve_csr_until_confident scores dir stem initial target mi).2 = mi := by
  obtain ⟨rem, rfl⟩ : ∃ rem, mi = rem + 1 := ⟨mi - 1, by omega⟩
  have hgo := improveGo_exhaust scores target dir stem rem 1 ⟨initial, 0, "", "", 0⟩
    (fun j hj1 hj2 => hall j hj1 (by omega))
  have h1r : 1 + rem = rem + 1 := by omega
  rw [h1r] at hgo
  have himp : improve_csr_until_confident scores dir stem initial target (rem + 1) =
      (⟨csrVersionPath dir stem (rem + 1), reviewVersionPath dir stem (rem + 1),
        complianceVersionPath dir stem (rem + 1), combinedScore scores (rem + 1),
        rem + 1⟩,
       traceExh scores (rem + 1) 1) := by
    simp only [improve_csr_until_confident]
    rw [hgo]
  rw [himp]
  refine ⟨rfl, rfl, rfl, ?_, ?_⟩
  · show (traceExh scores (rem + 1) 1).length = rem + 1
    rw [traceExh_length]
  · show countRevisions (traceExh scores (rem + 1) 1) = rem + 1
    rw [countRevisions_traceExh]

/-- C5 witness: with constant scores 10 and 20 against target 80 and
max_iterations 2, the loop runs both iterations, revises twice and ends on
the revision of iteration 2. -/
theorem spec_C5_exhaustion_witness :
    (improve_csr_until_confident (fun _ => (10, 20)) "out" "csr" "init.docx" 80 2).1.iterations = 2 ∧
    (improve_csr_until_confident (fun _ => (10, 20)) "out" "csr" "init.docx" 80 2).1.final_csr_path =
      "out/csr_v2.docx" ∧
    countRevisions
      (improve_csr_until_confident (fun _ => (10, 20)) "out" "csr" "init.docx" 80 2).2 = 2 := by
  have h := spec_C5_exhaustion (fun _ => (10, 20)) "out" "csr" "init.docx" 80 2
    (by omega) (by intro j hj1 hj2; norm_num [combinedScore])
  obtain ⟨h1, h2, h3, h4, h5⟩ := h
  refine ⟨h1, ?_, h5⟩
  · rw [h2]
    rfl

/-- C6 (amended): with max_iterations = 0 (the only natural number below 1)
the loop body never runs and improve_csr_until_confident returns normally —
the initial document, empty report paths, score 0.0, zero iterations and an
empty trace, hence no Evaluator and no Reviser invocation.  The code defines
no InvalidConfigurationError and performs no validation of
max_iterations. -/
theorem spec_C6_zero_iterations (scores : ℕ → ℚ × ℚ) (dir stem initial : String)
    (target : ℚ) :
    improve_csr_until_confident scores dir stem initial target 0 =
      (⟨initial, "", "", 0, 0⟩, []) := rfl

/-- C6 counterexample to the claimed failure: at the concrete invalid
configuration max_iterations = 0 the loop terminates normally with the
initial document and an empty trace instead of failing. -/
theorem spec_C6_counterexample :
    improve_csr_until_confident (fun _ => (0, 0)) "out" "generated_csr"
        "out/generated_csr.docx" 80 0 =
      (⟨"out/generated_csr.docx", "", "", 0, 0⟩, []) := rfl

/-- C7 (amended): version paths are not write-once.  write_docx_text never
fails: a second write to the same path succeeds and silently replaces the
stored document with the paragraphs of the new text; no write-conflict check
exists. -/
theorem spec_C7_write_overwrites (store : DocStore) (p : String)
    (t1 t2 : List Char) :
    storeGet (write_docx_text (write_docx_text store p t1) p t2) p =
      some (splitNl t2) := by
  unfold write_docx_text
  exact storeGet_storeSet_self _ p _

/-- C7 counterexample: two consecutive writes to the same version path — the
second one succeeds and the path now holds the second text, the first is
gone. -/
theorem spec_C7_counterexample :
    storeGet (write_docx_text (write_docx_text [] "out/generated_csr_v1.docx"
        "a".toList) "out/generated_csr_v1.docx" "b".toList)
      "out/generated_csr_v1.docx" = some [['b']] ∧
    [['b']] ≠ [['a']] := by
  constructor
  · rfl
  · decide

/-- C8 (amended): the evaluator calls do not reject blank documents.  For
both agents the call succeeds exactly when the document reference resolves
in the store; whether the resolved text is blank is never examined, so a
blank document is evaluated like any other. -/
theorem spec_C8_blank_not_rejected (st : EvalAgentState) (a b : Option String)
    (llm : List Char → List Char) (store : DocStore) :
    exceptOk (review_document st a b llm store).2 =
      (read_docx_text store (updateOptPath a st.csr_path)).isSome ∧
    exceptOk (check_regulatory_compliance st a b llm store).2 =
      (read_docx_text store (updateOptPath a st.csr_path)).isSome := by
  constructor
  · simp only [review_document]
    cases h : read_docx_text store (updateOptPath a st.csr_path) <;>
      simp [h, exceptOk]
  · simp only [check_regulatory_compliance]
    cases h : read_docx_text store (updateOptPath a st.csr_path) <;>
      simp [h, exceptOk]

/-- C8 counterexample: a stored document whose only paragraph is whitespace
resolves to blank text, yet review_document returns a normal result (report
written, score parsed from the LLM output) instead of an
EmptyDocumentError-style failure. -/
theorem spec_C8_counterexample :
    read_docx_text [("doc.docx", [[' ']])] "doc.docx" = some [] ∧
    (review_document ⟨"doc.docx", "report.docx"⟩ none none
        (fun _ => "OVERALL_COMPLETENESS_SCORE: 55".toList)
        [("doc.docx", [[' ']])]).2 =
      Except.ok
        (write_docx_text [("doc.docx", [[' ']])] "report.docx"
            "OVERALL_COMPLETENESS_SCORE: 55".toList,
         "report.docx", 55) := by
  constructor
  · rfl
  · rfl

/-- C9 (amended): sticky evaluator paths under Python truthiness.  A call
that passes a non-empty csr_path or output_path permanently overwrites the
corresponding stored field of the agent, and every later call that omits an
argument (None) — or passes the falsy empty string — reuses the stored
value rather than receiving a fresh default. -/
theorem spec_C9_sticky_paths (st : EvalAgentState) (s : String)
    (b : Option String) (llm : List Char → List Char) (store : DocStore) :
    (s ≠ "" →
      (review_document st (some s) b llm store).1.csr_path = s ∧
      (review_document st b (some s) llm store).1.output_path = s ∧
      (check_regulatory_compliance st (some s) b llm store).1.csr_path = s ∧
      (check_regulatory_compliance st b (some s) llm store).1.output_path = s) ∧
    (review_document st none none llm store).1 = st ∧
    (review_document st (some "") (some "") llm store).1 = st ∧
    (check_regulatory_compliance st none none llm store).1 = st ∧
    (check_regulatory_compliance st (some "") (some "") llm store).1 = st := by
  constructor
  · intro hs
    refine ⟨?_, ?_, ?_, ?_⟩ <;>
      simp [review_document, check_regulatory_compliance, updateOptPath, hs]
  · refine ⟨?_, ?_, ?_, ?_⟩ <;>
      simp [review_document, check_regulatory_compliance, updateOptPath]

/-- C9 witness: a call passing csr_path "v1.docx" leaves the agent pointing
at "v1.docx". -/
theorem spec_C9_sticky_paths_witness :
    (review_document ⟨"default_csr.docx", "default_report.docx"⟩
        (some "v1.docx") none (fun _ => []) []).1.csr_path = "v1.docx" := by
  exact ((spec_C9_sticky_paths ⟨"default_csr.docx", "default_report.docx"⟩
    "v1.docx" none (fun _ => []) []).1 (by decide)).1

/-- C9 counterexample to the claim as stated: the empty string is a
non-None csr_path, yet the call leaves the stored path fields untouched
(Python truthiness, not an is-None test). -/
theorem spec_C9_counterexample :
    (review_document ⟨"default_csr.docx", "default_report.docx"⟩ (some "")
        none (fun _ => []) []).1 =
      ⟨"default_csr.docx", "default_report.docx"⟩ ∧
    ("" : String) ≠ "default_csr.docx" := by
  constructor
  · rfl
  · decide

/-- C10 (amended): the write/read round trip returns the text with every
blank (empty or whitespace-only) line removed, and the round trip is the
identity exactly when the text is empty or has no blank line.  The empty
text is the one exception to the claimed equivalence: its single line is
blank, yet reading returns the empty text unchanged because joining zero
lines and joining one empty line coincide. -/
theorem spec_C10_roundtrip (store : DocStore) (p : String) (t : List Char) :
    read_docx_text (write_docx_text store p t) p =
      some (joinNl ((splitNl t).filter (fun l => !(isBlankLine l)))) ∧
    (joinNl ((splitNl t).filter (fun l => !(isBlankLine l))) = t ↔
      t = [] ∨ ∀ l ∈ splitNl t, isBlankLine l = false) := by
  constructor
  · unfold read_docx_text write_docx_text
    rw [storeGet_storeSet_self]
    rfl
  · constructor
    · intro h
      by_cases ht : t = []
      · exact Or.inl ht
      · refine Or.inr ?_
        intro l hl
        by_contra hbl
        have hbl' : isBlankLine l = true := by
          cases hisb : isBlankLine l
          · exact absurd hisb hbl
          · rfl
        have hflt : ((splitNl t).filter (fun l => !(isBlankLine l))).length <
            (splitNl t).length :=
          length_filter_lt_of_mem _ _ l hl (by simp [hbl'])
        cases hF : (splitNl t).filter (fun l => !(isBlankLine l)) with
        | nil =>
          rw [hF] at h
          exact ht (by simpa [joinNl] using h.symm)
        | cons f fs =>
          have hsum := sum_map_length_filter_le
            (fun l => !(isBlankLine l)) (splitNl t)
          have hlen1 := joinNl_length
            ((splitNl t).filter (fun l => !(isBlankLine l)))
          have hlen2 := joinNl_length (splitNl t)
          have hFlen : 1 ≤ ((splitNl t).filter (fun l => !(isBlankLine l))).length := by
            rw [hF]
            simp
          have hcontr : (joinNl ((splitNl t).filter (fun l => !(isBlankLine l)))).length <
              (joinNl (splitNl t)).length := by
            rw [hlen1, hlen2]
            omega
          rw [h, joinNl_splitNl] at hcontr
          exact absurd hcontr (lt_irrefl _)
    · rintro (rfl | hall)
      · rfl
      · have hself : (splitNl t).filter (fun l => !(isBlankLine l)) = splitNl t :=
          List.filter_eq_self.mpr (fun a ha => by simp [hall a ha])
        rw [hself, joinNl_splitNl]

/-- C10 counterexample to the claimed equivalence: the empty text round
trips unchanged although its single line is blank. -/
theorem spec_C10_counterexample :
    read_docx_text (write_docx_text [] "p.docx" []) "p.docx" = some [] ∧
    splitNl ([] : List Char) = [[]] ∧
    isBlankLine ([] : List Char) = true :=
  ⟨rfl, rfl, rfl⟩
